import Mathlib

/-!
Verification of the kyuri progress-display library (`src/lib.rs`,
`src/template.rs`, `src/ticker.rs`) against its specification.

Modelling conventions:
* Rust `String`/`&str` values are modelled as `List Char` (Rust iterates
  them with `chars()`, so this is the structure the code actually uses).
* `u64`/`usize` values are modelled as `Nat`; where overflow matters the
  code's release-mode wrapping semantics are made explicit with `% 2 ^ 64`.
* `f64` arithmetic (throughput, ETA, bar fill, byte scaling) is modelled
  bit-exactly: a finite nonnegative binary64 value is a mantissa/exponent
  pair `(m, e)` with value `m * 2 ^ e` (`2 ^ 52 ≤ m < 2 ^ 53` for nonzero
  values), every conversion and arithmetic operation rounds its exact
  result to the nearest representable value with ties to even (IEEE 754
  round-to-nearest-even, implemented in integer arithmetic), the
  `as u64`/`as usize` casts truncate toward zero and saturate, and the
  infinity/NaN results of dividing by a zero elapsed time or zero length
  are modelled at the call sites that produce them.  All values arising
  here lie far inside the normal range, so subnormals and overflow never
  change a cast result and need no separate treatment.
* Timestamps (`std::time::Instant`) are modelled as `Nat` instants; a
  `Duration` is a `Nat` number of seconds.
-/

/-- `u64::MAX`, the saturation bound of Rust's `as u64` float cast. -/
def U64MAX : Nat := 2 ^ 64 - 1

/-- `usize::MAX` on a 64-bit target (the crate only targets 64-bit here). -/
def USIZEMAX : Nat := 2 ^ 64 - 1

/-- Wrapping `u64` subtraction `a - b` (release-mode semantics of
`self.len - self.pos` in `BarState::render`, lib.rs:154). -/
def wrapSub (a b : Nat) : Nat := (2 ^ 64 + a - b) % 2 ^ 64

/-- Fuel-based `⌊log2 n⌋` (fuel ≥ the number of halvings always
suffices; `natLog2` passes `n` itself, so the result is exact for every
`n ≥ 1`). -/
def log2F (fuel n : Nat) : Nat :=
  match fuel with
  | 0 => 0
  | fuel + 1 => if 2 ≤ n then log2F fuel (n / 2) + 1 else 0

/-- `⌊log2 n⌋` for `n ≥ 1` (0 for `n = 0`). -/
def natLog2 (n : Nat) : Nat := log2F n n

/-- Round the nonnegative rational `p / q` to the nearest integer, ties
to even. -/
def roundHalfEven (p q : Nat) : Nat :=
  if 2 * (p % q) < q then p / q
  else if q < 2 * (p % q) then p / q + 1
  else if p / q % 2 = 0 then p / q else p / q + 1

/-- `⌊log2 (num / den)⌋` for positive `num`, `den`: the candidate
`⌊log2 num⌋ - ⌊log2 den⌋` is off by at most one, fixed by a single
comparison. -/
def ratExp (num den : Nat) : Int :=
  let k0 : Int := (natLog2 num : Int) - (natLog2 den : Int)
  if den * 2 ^ Int.toNat k0 ≤ num * 2 ^ Int.toNat (-k0) then k0 else k0 - 1

/-- The binary64 value nearest to the positive rational `num / den`
(round-to-nearest, ties to even), as a mantissa/exponent pair: scale the
value into `[2 ^ 52, 2 ^ 53)`, round the mantissa, and renormalize when
rounding carries into `2 ^ 53`. -/
def f64round (num den : Nat) : Nat × Int :=
  let k := ratExp num den
  let m := roundHalfEven (num * 2 ^ Int.toNat (52 - k)) (den * 2 ^ Int.toNat (k - 52))
  if m = 2 ^ 53 then (2 ^ 52, k - 51) else (m, k - 52)

/-- Rust `n as f64` for a `u64` value: one correct rounding. -/
def f64ofNat (n : Nat) : Nat × Int :=
  if n = 0 then (0, 0) else f64round n 1

/-- binary64 division of finite nonnegative values (nonzero divisor):
one correct rounding of the exact quotient
`(a.1 / b.1) * 2 ^ (a.2 - b.2)`. -/
def f64div (a b : Nat × Int) : Nat × Int :=
  if a.1 = 0 then (0, 0)
  else f64round (a.1 * 2 ^ Int.toNat (a.2 - b.2)) (b.1 * 2 ^ Int.toNat (b.2 - a.2))

/-- binary64 multiplication of finite nonnegative values: one correct
rounding of the exact product (scaling by `2 ^ e` is exact). -/
def f64mul (a b : Nat × Int) : Nat × Int :=
  if a.1 = 0 ∨ b.1 = 0 then (0, 0)
  else ((f64round (a.1 * b.1) 1).1, (f64round (a.1 * b.1) 1).2 + a.2 + b.2)

/-- Truncation toward zero of a finite nonnegative binary64 value. -/
def f64trunc (a : Nat × Int) : Nat :=
  if 0 ≤ a.2 then a.1 * 2 ^ Int.toNat a.2 else a.1 / 2 ^ Int.toNat (-a.2)


/-- Decimal digits of `n`, as Rust's `{}` formatting of an integer. -/
def natChars (n : Nat) : List Char := Nat.toDigits 10 n

/-- Rust `{:02}` formatting: zero-pad to two digits. -/
def pad2 (n : Nat) : List Char :=
  if n < 10 then '0' :: natChars n else natChars n

/-- `duration_to_human` (lib.rs:77–83): seconds to `H:MM:SS`. -/
def durationToHuman (secs : Nat) : List Char :=
  natChars (secs / 3600) ++ ':' :: pad2 (secs % 3600 / 60) ++ ':' :: pad2 (secs % 60)

/-- Rust `{:.2}` formatting of a finite nonnegative `f64` value: Rust
prints the correctly rounded 2-fractional-digit decimal of the exact
binary value, ties to even (e.g. the exact value 1.125 prints "1.12"). -/
def fmt2 (a : Nat × Int) : List Char :=
  natChars (roundHalfEven (a.1 * 100 * 2 ^ Int.toNat a.2) (2 ^ Int.toNat (-a.2)) / 100) ++
    '.' :: pad2 (roundHalfEven (a.1 * 100 * 2 ^ Int.toNat a.2) (2 ^ Int.toNat (-a.2)) % 100)

/-- `bytes_to_human` (lib.rs:85–102): power-of-two byte scaling; the
scaled value is the binary64 quotient `bytes as f64 / unit as f64` (the
unit constants up to `2 ^ 40` convert exactly). -/
def bytesToHuman (bytes : Nat) : List Char :=
  if bytes < 1024 then natChars bytes ++ [' ', 'B']
  else if bytes < 1024 ^ 2 then
    fmt2 (f64div (f64ofNat bytes) (f64ofNat 1024)) ++ [' ', 'K', 'i', 'B']
  else if bytes < 1024 ^ 3 then
    fmt2 (f64div (f64ofNat bytes) (f64ofNat (1024 ^ 2))) ++ [' ', 'M', 'i', 'B']
  else if bytes < 1024 ^ 4 then
    fmt2 (f64div (f64ofNat bytes) (f64ofNat (1024 ^ 3))) ++ [' ', 'G', 'i', 'B']
  else fmt2 (f64div (f64ofNat bytes) (f64ofNat (1024 ^ 4))) ++ [' ', 'T', 'i', 'B']

/-- The render-instruction alphabet consumed by `BarState::render`
(lib.rs:121–195).  Note: the `TemplatePart` enum actually declared in
template.rs:2–18 omits the `bar` and `stateEmoji` constructors even though
`BarState::render` matches on `TemplatePart::Bar` and
`TemplatePart::StateEmoji`; we declare the full alphabet the renderer
consumes, and the compiler below (faithful to template.rs) simply never
produces those two constructors. -/
inductive TemplatePart where
  | newline
  | message
  | elapsed
  | bytes
  | pos
  | totalBytes
  | total
  | bytesPerSecond
  | eta
  | bar (size : Nat)
  | stateEmoji
  | text (s : List Char)
deriving DecidableEq, Repr

/-- The intermediate `Fragment` of `Template::new` (template.rs:27–30). -/
inductive Fragment where
  | text (s : List Char)
  | tag (s : List Char)
deriving DecidableEq, Repr

/-- The inner `for ch2 in chars.by_ref()` loop of `Template::new`
(template.rs:48–54): scan up to the first `}`; return the tag content and
the remaining input, or `none` if no closing brace exists. -/
def scanTag : List Char → Option (List Char × List Char)
  | [] => none
  | c :: rest =>
    if c = '}' then some ([], rest)
    else
      match scanTag rest with
      | some (t, r) => some (c :: t, r)
      | none => none

/-- The outer `while let Some(ch) = chars.next()` loop of `Template::new`
(template.rs:35–79), with `acc` playing the role of `current_text` and a
structurally decreasing fuel so the function reduces definitionally.  Each
loop iteration consumes at least one input character and exactly one unit
of fuel, so `fuel = cs.length + 1` always suffices (see `scan`).
Produces the fragment list, including the final flush of `current_text`. -/
def scanF (fuel : Nat) (cs : List Char) (acc : List Char) : List Fragment :=
  match fuel with
  | 0 => []
  | fuel + 1 =>
    match cs with
    | [] => if acc = [] then [] else [Fragment.text acc]
    | c :: rest =>
      if c = '{' then
        match rest with
        | c2 :: rest2 =>
          if c2 = '{' then scanF fuel rest2 (acc ++ ['{'])
          else
            match scanTag rest with
            | some (tag, rest2') =>
              (if acc = [] then [] else [Fragment.text acc]) ++
                Fragment.tag tag :: scanF fuel rest2' []
            | none =>
              (if acc = [] then [] else [Fragment.text acc]) ++
                [Fragment.text ('{' :: rest)]
        | [] =>
          (if acc = [] then [] else [Fragment.text acc]) ++ [Fragment.text ['{']]
      else if c = '}' then
        match rest with
        | c2 :: rest2 =>
          if c2 = '}' then scanF fuel rest2 (acc ++ ['}'])
          else scanF fuel rest (acc ++ ['}'])
        | [] => scanF fuel [] (acc ++ ['}'])
      else scanF fuel rest (acc ++ [c])

/-- The fragment scanner of `Template::new`, with enough fuel for the
whole input. -/
def scan (cs : List Char) (acc : List Char) : List Fragment :=
  scanF (cs.length + 1) cs acc

/-- Rust `text.split('\n')` (template.rs:83) on a char list. -/
def splitNL : List Char → List (List Char)
  | [] => [[]]
  | c :: rest =>
    if c = '\n' then [] :: splitNL rest
    else
      match splitNL rest with
      | p :: ps => (c :: p) :: ps
      | [] => [[c]]

/-- The `j > 0` pieces of `push_text` (template.rs:84–89): each later
piece is preceded by an explicit newline instruction. -/
def partsTail : List (List Char) → List TemplatePart
  | [] => []
  | q :: qs => TemplatePart.newline :: TemplatePart.text q :: partsTail qs

/-- `push_text` (template.rs:82–90): split literal text at line breaks
into text instructions interleaved with newline instructions. -/
def pushText (s : List Char) : List TemplatePart :=
  match splitNL s with
  | [] => []
  | p :: ps => TemplatePart.text p :: partsTail ps

/-- The tag dispatch of `Template::new` (template.rs:96–114).  Faithful to
template.rs as given: `len`, `bar`, `bar<N>` and the status-glyph tag are
NOT in the recognized set and fall through to the literal-text default. -/
def dispatchTag (tag : List Char) : List TemplatePart :=
  if tag = "msg".data then [TemplatePart.message]
  else if tag = "message".data then [TemplatePart.message]
  else if tag = "elapsed".data then [TemplatePart.elapsed]
  else if tag = "elapsed_precise".data then [TemplatePart.elapsed]
  else if tag = "bytes".data then [TemplatePart.bytes]
  else if tag = "pos".data then [TemplatePart.pos]
  else if tag = "total_bytes".data then [TemplatePart.totalBytes]
  else if tag = "total".data then [TemplatePart.total]
  else if tag = "bytes_per_second".data then [TemplatePart.bytesPerSecond]
  else if tag = "bytes_per_sec".data then [TemplatePart.bytesPerSecond]
  else if tag = "eta".data then [TemplatePart.eta]
  else pushText ('{' :: tag ++ ['}'])

/-- Second pass of `Template::new` (template.rs:91–116): turn fragments
into template parts. -/
def fragsToParts : List Fragment → List TemplatePart
  | [] => []
  | Fragment.text s :: fs => pushText s ++ fragsToParts fs
  | Fragment.tag t :: fs => dispatchTag t ++ fragsToParts fs

/-- `Template::new` (template.rs:26–119): compile a template string into
an ordered list of render instructions. -/
def Template.new (t : List Char) : List TemplatePart :=
  fragsToParts (scan t [])

/-- `BarState` (lib.rs:66–75).  `created_at` is a `Nat` instant; the
output sink handle lives in the manager, so it does not appear here. -/
structure BarState where
  len : Nat
  pos : Nat
  message : List Char
  template : List TemplatePart
  createdAt : Nat
  visible : Bool
  need_redraw : Bool
deriving DecidableEq, Repr

/-- The `filled` computation of the bar-glyph arm (lib.rs:161):
`(pos as f64 / len as f64 * size as f64) as usize` — three conversions,
one division and one multiplication, each correctly rounded, then a
truncating saturating cast.  For `len = 0` the `f64` quotient is NaN
(`pos = 0`, cast yields 0) or `+inf` (`pos > 0`, cast saturates to
`usize::MAX`). -/
def barFilled (pos len size : Nat) : Nat :=
  if len = 0 then (if pos = 0 then 0 else USIZEMAX)
  else min (f64trunc (f64mul (f64div (f64ofNat pos) (f64ofNat len)) (f64ofNat size))) USIZEMAX

/-- The bar-glyph arm of `BarState::render` (lib.rs:160–182). -/
def barGlyph (pos len size : Nat) : List Char :=
  if barFilled pos len size ≤ size then
    '[' :: (List.replicate (barFilled pos len size) '=' ++
      List.replicate (size - barFilled pos len size) ' ' ++ [']'])
  else
    '[' :: (List.replicate size '=' ++
      List.replicate (barFilled pos len size - size) '!')

/-- The status-glyph arm of `BarState::render` (lib.rs:183–194). -/
def stateEmojiChars (pos len : Nat) : List Char :=
  if pos = len then ['✅']
  else if pos = 0 then ['🆕']
  else if pos > len then ['💥']
  else ['⏳']

/-- `bytes_per_second as u64` (lib.rs:120,148): `pos as f64 /
elapsed.as_secs_f64()` at the whole-second elapsed times `e` of this
model (whole seconds make `as_secs_f64` a single `u64 → f64`
conversion), then the truncating saturating cast.  With zero elapsed
time the `f64` quotient is NaN (`pos = 0`, cast yields 0) or `+inf`
(cast saturates to `u64::MAX`). -/
def bpsU64 (pos e : Nat) : Nat :=
  if e = 0 then (if pos = 0 then 0 else U64MAX)
  else min (f64trunc (f64div (f64ofNat pos) (f64ofNat e))) U64MAX

/-- `eta as u64` (lib.rs:154–157): `(len - pos) as f64 /
bytes_per_second`, where `len - pos` is wrapping `u64` subtraction and
`bytes_per_second` is the binary64 quotient `pos as f64 / e as f64`.
Only evaluated when `pos > 0`; with zero elapsed time
`bytes_per_second` is `+inf`, so the quotient is 0; otherwise two
conversions and two divisions, each correctly rounded, then the
truncating saturating cast. -/
def etaU64 (len pos e : Nat) : Nat :=
  if e = 0 then 0
  else min (f64trunc (f64div (f64ofNat (wrapSub len pos))
                             (f64div (f64ofNat pos) (f64ofNat e)))) U64MAX

/-- One arm of the rendering match in `BarState::render` (lib.rs:121–195),
with `e` the elapsed time in whole seconds. -/
def renderPart (st : BarState) (e : Nat) : TemplatePart → List Char
  | TemplatePart.text s => s
  | TemplatePart.newline => ['\n']
  | TemplatePart.message => st.message
  | TemplatePart.elapsed => durationToHuman e
  | TemplatePart.bytes => bytesToHuman st.pos
  | TemplatePart.pos => natChars st.pos
  | TemplatePart.totalBytes => bytesToHuman st.len
  | TemplatePart.total => natChars st.len
  | TemplatePart.bytesPerSecond => bytesToHuman (bpsU64 st.pos e) ++ ['/', 's']
  | TemplatePart.eta =>
    if st.pos = 0 then "Unknown".data
    else durationToHuman (etaU64 st.len st.pos e)
  | TemplatePart.bar size => barGlyph st.pos st.len size
  | TemplatePart.stateEmoji => stateEmojiChars st.pos st.len

/-- The rendering loop of `BarState::render`: concatenate the arms in
template order. -/
def renderParts (st : BarState) (e : Nat) : List TemplatePart → List Char
  | [] => []
  | p :: ps => renderPart st e p ++ renderParts st e ps

/-- `BarState::render` (lib.rs:117–198) at instant `now`. -/
def BarState.render (st : BarState) (now : Nat) : List Char :=
  renderParts st (now - st.createdAt) st.template

/-- `ManagerInner` (lib.rs:211–223).  The `out`/`ansi` pair is abstracted
to the resolved result of `is_terminal` (lib.rs:237–243) and `get_width`,
which are fixed properties of the configured sink; `next_id` is omitted
(no claim mentions identifier allocation). -/
structure ManagerInner where
  states : List (Nat × BarState)
  interval : Nat
  lastDraw : Nat
  lastLines : Nat
  needRedraw : Bool
  tickerOn : Bool
  isTerminal : Bool
  termWidth : Nat
deriving DecidableEq, Repr

/-- `UP_ANSI ++ CLEAR_ANSI` (lib.rs:63–64,233), one erase step of
`clear_existing`. -/
def clearSeq : List Char := "\x1b[F\r\x1b[K".data

/-- The wrapped-line accounting of `draw_inner` (lib.rs:262–270): split at
newlines, count `width / term_col` plus one for a partial line.  Widths
use `chars().count()` (the crate's non-`unicode` `string_width`). -/
def countLines (tw : Nat) (s : List Char) : Nat :=
  (splitNL s).foldl
    (fun acc p => acc + p.length / tw + (if p.length % tw ≠ 0 then 1 else 0)) 0

/-- `ManagerInner::draw_inner` (lib.rs:245–279): walk the registry in
order; skip invisible bars, and — on non-terminal sinks — bars that are
not individually dirty; render the rest followed by a newline, clearing
their dirty flags; in terminal mode also count the wrapped lines written.
Returns (new registry, output writes in order, wrapped-line count). -/
def drawInner (isTerm : Bool) (tw : Nat) (now : Nat) :
    List (Nat × BarState) → List (Nat × BarState) × List (List Char) × Nat
  | [] => ([], [], 0)
  | (id, st) :: rest =>
    let r := drawInner isTerm tw now rest
    if st.visible = false then ((id, st) :: r.1, r.2.1, r.2.2)
    else if isTerm = false ∧ st.need_redraw = false then ((id, st) :: r.1, r.2.1, r.2.2)
    else
      let outstr := BarState.render st now ++ ['\n']
      ((id, { st with need_redraw := false }) :: r.1,
       outstr :: r.2.1,
       (if isTerm then countLines tw outstr else 0) + r.2.2)

/-- `ManagerInner::draw` (lib.rs:286–313): the three short-circuit gates
(ticker, rate limit, dirty flag), then the erase of the previous frame
(terminal mode, non-empty registry), the registry walk, and the
`last_draw`/`last_lines` updates.  Returns the new manager state and the
sequence of writes issued to the sink. -/
def ManagerInner.draw (m : ManagerInner) (force : Bool) (now : Nat) :
    ManagerInner × List (List Char) :=
  if force = false ∧ m.tickerOn = true then (m, [])
  else if force = false ∧ now - m.lastDraw < m.interval then (m, [])
  else if m.needRedraw = false then (m, [])
  else
    let clears : List (List Char) :=
      if m.isTerminal = true ∧ 0 < m.states.length
      then List.replicate m.lastLines clearSeq else []
    let r := drawInner m.isTerminal m.termWidth now m.states
    ({ m with states := r.1,
              needRedraw := false,
              lastLines := if m.isTerminal then r.2.2 else m.lastLines,
              lastDraw := now },
     clears ++ r.2.1)

/-- `Manager::new` (lib.rs:375–389): empty registry, no ticker, clean
dirty flag, and `last_draw = construction instant - interval`.  `isTerm`
and `tw` are the resolved terminal-ness and width of the stdout sink. -/
def Manager.new (interval t0 : Nat) (isTerm : Bool) (tw : Nat) : ManagerInner :=
  { states := []
    interval := interval
    lastDraw := t0 - interval
    lastLines := 0
    needRedraw := false
    tickerOn := false
    isTerminal := isTerm
    termWidth := tw }

/-- One timed-out ticker cycle (ticker.rs:21–32): when the cancellable
wait times out, the loop body runs `manager.draw(false)` (ticker.rs:31).
While the ticker loop is running, `ManagerInner::is_ticker_enabled` is
true (`Manager::set_ticker` holds `Some(Ticker)` for the whole time the
thread is alive, lib.rs:433–440). -/
def tickerTimeoutDraw (m : ManagerInner) (now : Nat) :
    ManagerInner × List (List Char) :=
  ManagerInner.draw m false now

/-- Registry update of the entry with key `id` (locking one bar's state
and mutating it). -/
def updateAt (states : List (Nat × BarState)) (id : Nat)
    (f : BarState → BarState) : List (Nat × BarState) :=
  states.map (fun p => if p.1 = id then (p.1, f p.2) else p)

/-- `Bar::get_manager_and_state` (lib.rs:518–522), modelled on the weak
manager link: `none` once the manager has been destroyed. -/
def resolveBar (mo : Option ManagerInner) (id : Nat) : Option BarState :=
  match mo with
  | none => none
  | some m => m.states.lookup id

/-- Common body of the unforced-draw mutators (`set_pos`, `inc`,
`set_len`, `set_message`, `set_template`, lib.rs:524–561,622–646):
resolve the weak link (no-op when gone), mutate the bar, set both dirty
flags, then request an unforced draw. -/
def barMutateUnforced (mo : Option ManagerInner) (id : Nat)
    (f : BarState → BarState) (now : Nat) :
    Option ManagerInner × List (List Char) :=
  match mo with
  | none => (none, [])
  | some m =>
    match m.states.lookup id with
    | none => (some m, [])
    | some _ =>
      let m' := { m with
        states := updateAt m.states id (fun st => { f st with need_redraw := true })
        needRedraw := true }
      let r := ManagerInner.draw m' false now
      (some r.1, r.2)

/-- `Bar::set_pos` (lib.rs:538–548). -/
def Bar.set_pos (mo : Option ManagerInner) (id pos now : Nat) :
    Option ManagerInner × List (List Char) :=
  barMutateUnforced mo id (fun st => { st with pos := pos }) now

/-- `Bar::inc` (lib.rs:525–535); `pos += n` wraps in `u64` (release-mode
semantics). -/
def Bar.inc (mo : Option ManagerInner) (id n now : Nat) :
    Option ManagerInner × List (List Char) :=
  barMutateUnforced mo id (fun st => { st with pos := (st.pos + n) % 2 ^ 64 }) now

/-- `Bar::set_len` (lib.rs:551–561). -/
def Bar.set_len (mo : Option ManagerInner) (id len now : Nat) :
    Option ManagerInner × List (List Char) :=
  barMutateUnforced mo id (fun st => { st with len := len }) now

/-- `Bar::set_message` (lib.rs:623–633). -/
def Bar.set_message (mo : Option ManagerInner) (id : Nat) (msg : List Char)
    (now : Nat) : Option ManagerInner × List (List Char) :=
  barMutateUnforced mo id (fun st => { st with message := msg }) now

/-- `Bar::set_template` (lib.rs:636–646): recompile via `Template::new`. -/
def Bar.set_template (mo : Option ManagerInner) (id : Nat) (tpl : List Char)
    (now : Nat) : Option ManagerInner × List (List Char) :=
  barMutateUnforced mo id (fun st => { st with template := Template.new tpl }) now

/-- `Bar::set_visible` (lib.rs:600–612): forced draw, and only when the
visibility actually changes. -/
def Bar.set_visible (mo : Option ManagerInner) (id : Nat) (v : Bool)
    (now : Nat) : Option ManagerInner × List (List Char) :=
  match mo with
  | none => (none, [])
  | some m =>
    match m.states.lookup id with
    | none => (some m, [])
    | some st =>
      if st.visible ≠ v then
        let m' := { m with
          states := updateAt m.states id
            (fun s => { s with visible := v, need_redraw := true })
          needRedraw := true }
        let r := ManagerInner.draw m' true now
        (some r.1, r.2)
      else (some m, [])

/-- `Bar::get_pos` (lib.rs:566–569): 0 once the manager is gone. -/
def Bar.get_pos (mo : Option ManagerInner) (id : Nat) : Nat :=
  match resolveBar mo id with
  | none => 0
  | some st => st.pos

/-- `Bar::get_len` (lib.rs:574–577): 0 once the manager is gone. -/
def Bar.get_len (mo : Option ManagerInner) (id : Nat) : Nat :=
  match resolveBar mo id with
  | none => 0
  | some st => st.len

/-- `Bar::is_visible` (lib.rs:617–620): false once the manager is gone. -/
def Bar.is_visible (mo : Option ManagerInner) (id : Nat) : Bool :=
  match resolveBar mo id with
  | none => false
  | some st => st.visible

/-- `Bar::alive` (lib.rs:651–653). -/
def Bar.alive (mo : Option ManagerInner) (id : Nat) : Bool :=
  (resolveBar mo id).isSome

/-- Faults of the lock discipline.  `std::sync::Mutex` is not reentrant:
relocking a mutex already held by the current thread deadlocks (or
panics), never succeeds. -/
inductive LockFault where
  | deadlock
deriving DecidableEq, Repr

/-- `Bar::finish` (lib.rs:580–591).  The guard taken at lib.rs:582 on the
bar's state mutex is alive until `std::mem::drop(state)` at lib.rs:588;
when `pos != len` the call `self.set_pos(len)` at lib.rs:586 relocks the
same mutex (lib.rs:540) inside that window, which deadlocks. -/
def Bar.finish (mo : Option ManagerInner) (id now : Nat) :
    Except LockFault (Option ManagerInner × List (List Char)) :=
  match mo with
  | none => Except.ok (none, [])
  | some m =>
    match m.states.lookup id with
    | none => Except.ok (some m, [])
    | some st =>
      if st.pos ≠ st.len then Except.error LockFault.deadlock
      else
        let r := ManagerInner.draw m true now
        Except.ok (some r.1, r.2)


/-- A visible, individually-dirty bar used by concrete evaluations. -/
def sampleBar : BarState :=
  { len := 100, pos := 50, message := ['m'], template := [TemplatePart.pos],
    createdAt := 0, visible := true, need_redraw := true }

/-- A manager with an enabled ticker, a dirty registry, a visible dirty
bar and an elapsed rate-limit window: everything except the ticker gate
would let a draw pass. -/
def tickerMgr : ManagerInner :=
  { states := [(0, sampleBar)], interval := 1, lastDraw := 0, lastLines := 0,
    needRedraw := true, tickerOn := true, isTerminal := false, termWidth := 80 }

/-- A manager whose registry is non-empty (one visible dirty bar) but
whose global dirty flag is clear. -/
def cleanMgr : ManagerInner :=
  { states := [(0, sampleBar)], interval := 1, lastDraw := 0, lastLines := 0,
    needRedraw := false, tickerOn := false, isTerminal := true, termWidth := 80 }

/-- A manager with one live visible bar whose position (0) differs from
its length (100). -/
def finishMgr : ManagerInner :=
  { states := [(0, { sampleBar with pos := 0 })], interval := 1, lastDraw := 0,
    lastLines := 0, needRedraw := true, tickerOn := false, isTerminal := false,
    termWidth := 80 }

/-- The same manager with the bar already at its length. -/
def finishedMgr : ManagerInner :=
  { states := [(0, { sampleBar with pos := 100 })], interval := 1, lastDraw := 0,
    lastLines := 0, needRedraw := true, tickerOn := false, isTerminal := false,
    termWidth := 80 }

/-- The overflowed bar state of the spec's overflow test: length 10,
position 15. -/
def overflowBar : BarState :=
  { len := 10, pos := 15, message := [], template := [], createdAt := 0,
    visible := true, need_redraw := true }

/-- A bar state at the edge of binary64 precision: position `2 ^ 53 + 3`
(not exactly representable, converts to `2 ^ 53 + 4`), length
`2 ^ 53 + 4` (exactly representable). -/
def bigBar : BarState :=
  { len := 2 ^ 53 + 4, pos := 2 ^ 53 + 3, message := [], template := [],
    createdAt := 0, visible := true, need_redraw := true }

theorem scanTag_length : ∀ cs t r, scanTag cs = some (t, r) → r.length < cs.length := by
  intro cs
  induction cs with
  | nil => intro t r h; simp [scanTag] at h
  | cons c rest ih =>
    intro t r h
    simp only [scanTag] at h
    split at h
    · simp only [Option.some.injEq, Prod.mk.injEq] at h
      obtain ⟨-, h2⟩ := h
      simp only [← h2, List.length_cons]
      omega
    · split at h
      next a b hsc =>
        simp only [Option.some.injEq, Prod.mk.injEq] at h
        obtain ⟨-, h2⟩ := h
        have := ih a b hsc
        simp only [← h2, List.length_cons]
        omega
      next => exact absurd h (by simp)

theorem splitNL_ne_nil : ∀ s, splitNL s ≠ [] := by
  intro s
  cases s with
  | nil => simp [splitNL]
  | cons c rest =>
    simp only [splitNL]
    by_cases hc : c = '\n'
    · simp [hc]
    · simp [hc]
      cases splitNL rest <;> simp

/-- C1: the spec claims the template compiler recognizes
`total`/`len`, `bar`/`bar<N>` and a status-glyph tag along with the other
fixed tags, but `Template::new` (template.rs:96–114) has no match arm for
`len`, `bar`, `bar<N>` or `state_emoji`: those four fall through to the
unknown-tag default and come back as literal text, while the remaining
claimed tags are recognized.  This contradicts the crate documentation
(lib.rs:31–41, which lists all of them as supported) and `BarState::render`
(lib.rs:160–194), which has arms for the bar and status-glyph
instructions that this compiler can never produce (the `TemplatePart`
enum of template.rs:2–18 does not even declare those constructors). -/
theorem C1_tag_set_evaluation :
  Template.new "\x7bbar\x7d".data = [TemplatePart.text "\x7bbar\x7d".data] ∧
  Template.new "\x7bbar10\x7d".data = [TemplatePart.text "\x7bbar10\x7d".data] ∧
  Template.new "\x7blen\x7d".data = [TemplatePart.text "\x7blen\x7d".data] ∧
  Template.new "\x7bstate_emoji\x7d".data = [TemplatePart.text "\x7bstate_emoji\x7d".data] ∧
  Template.new "\x7bmsg\x7d".data = [TemplatePart.message] ∧
  Template.new "\x7bmessage\x7d".data = [TemplatePart.message] ∧
  Template.new "\x7belapsed\x7d".data = [TemplatePart.elapsed] ∧
  Template.new "\x7belapsed_precise\x7d".data = [TemplatePart.elapsed] ∧
  Template.new "\x7bbytes\x7d".data = [TemplatePart.bytes] ∧
  Template.new "\x7bpos\x7d".data = [TemplatePart.pos] ∧
  Template.new "\x7btotal_bytes\x7d".data = [TemplatePart.totalBytes] ∧
  Template.new "\x7btotal\x7d".data = [TemplatePart.total] ∧
  Template.new "\x7bbytes_per_sec\x7d".data = [TemplatePart.bytesPerSecond] ∧
  Template.new "\x7bbytes_per_second\x7d".data = [TemplatePart.bytesPerSecond] ∧
  Template.new "\x7beta\x7d".data = [TemplatePart.eta] := by
  decide

/-- C2: the spec claims a timed-out ticker cycle issues a draw that is
forced with respect to both the rate-limit gate and the ticker gate, so
the periodic draws reach the sink.  But the cycle body runs
`manager.draw(false)` (ticker.rs:31), and while the ticker is running
`is_ticker_enabled` is true, so the very first gate of
`ManagerInner::draw` (lib.rs:287–289) drops every such request: here a
dirty manager with a visible dirty bar, an elapsed rate-limit window and
the ticker enabled produces no output and no state change from the ticker
cycle, while a genuinely forced draw on the same state does write. -/
theorem C2_ticker_draw_is_dropped :
  tickerTimeoutDraw tickerMgr 100 = (tickerMgr, []) ∧
  (ManagerInner.draw tickerMgr true 100).2 ≠ [] := by
  decide

/-- C6: the spec says `finish` sets `position = length` when they differ
and then forces a draw.  But `Bar::finish` (lib.rs:580–591) still holds
the guard on the bar's state mutex (taken at lib.rs:582, dropped only at
lib.rs:588) when it calls `self.set_pos(len)` at lib.rs:586, and
`set_pos` relocks the same non-reentrant mutex (lib.rs:540): whenever
`pos != len` the call deadlocks instead of finishing the bar.  The
`pos == len` path (nothing to set) does reach the forced draw. -/
theorem C6_finish_deadlocks :
  Bar.finish (some finishMgr) 0 5 = Except.error LockFault.deadlock ∧
  Bar.finish (some finishedMgr) 0 5 =
    Except.ok (some (ManagerInner.draw finishedMgr true 5).1,
               (ManagerInner.draw finishedMgr true 5).2) := by
  exact ⟨rfl, rfl⟩

/-- C9: after the manager is destroyed the weak link of every outstanding
handle resolves to nothing (lib.rs:518–522), so `get_pos`/`get_len`
return 0, `is_visible`/`alive` return false, and every mutator — `set_pos`,
`inc`, `set_len`, `set_message`, `set_template`, `set_visible`, `finish` —
is a no-op that issues no write and raises no fault. -/
theorem C9_teardown_defaults :
    ∀ (id p n l now : Nat) (msg tpl : List Char) (v : Bool),
    Bar.get_pos none id = 0 ∧
    Bar.get_len none id = 0 ∧
    Bar.is_visible none id = false ∧
    Bar.alive none id = false ∧
    Bar.set_pos none id p now = (none, []) ∧
    Bar.inc none id n now = (none, []) ∧
    Bar.set_len none id l now = (none, []) ∧
    Bar.set_message none id msg now = (none, []) ∧
    Bar.set_template none id tpl now = (none, []) ∧
    Bar.set_visible none id v now = (none, []) ∧
    Bar.finish none id now = Except.ok (none, []) := by
  intro id p n l now msg tpl v
  exact ⟨rfl, rfl, rfl, rfl, rfl, rfl, rfl, rfl, rfl, rfl, rfl⟩

theorem drawInner_out_ne_nil (isTerm : Bool) (tw now : Nat) :
    ∀ l : List (Nat × BarState),
    (∃ id st, (id, st) ∈ l ∧ st.visible = true ∧ st.need_redraw = true) →
    (drawInner isTerm tw now l).2.1 ≠ [] := by
  intro l
  induction l with
  | nil => rintro ⟨id, st, hmem, -, -⟩; simp at hmem
  | cons hd rest ih =>
    rintro ⟨id, st, hmem, hv, hn⟩
    obtain ⟨id0, st0⟩ := hd
    rcases List.mem_cons.mp hmem with heq | hm
    · rw [Prod.mk.injEq] at heq
      obtain ⟨-, hst⟩ := heq
      subst hst
      simp only [drawInner, hv, hn]
      simp
    · have hrest := ih ⟨id, st, hm, hv, hn⟩
      simp only [drawInner]
      split_ifs <;> simp [hrest]

theorem draw_out_ne_nil_state (m : ManagerInner) (f : Bool) (now : Nat)
    (h : (ManagerInner.draw m f now).2 ≠ []) :
    (ManagerInner.draw m f now).1.lastDraw = now ∧
    (ManagerInner.draw m f now).1.tickerOn = m.tickerOn ∧
    (ManagerInner.draw m f now).1.interval = m.interval := by
  simp only [ManagerInner.draw] at h ⊢
  split_ifs at h ⊢ with h1 h2 h3 <;>
    first
      | exact absurd rfl h
      | exact ⟨rfl, rfl, rfl⟩

theorem draw_forced_dirty (m : ManagerInner) (now : Nat)
    (hdirty : m.needRedraw = true) :
    (ManagerInner.draw m true now).2 =
      (if m.isTerminal = true ∧ 0 < m.states.length
       then List.replicate m.lastLines clearSeq else []) ++
      (drawInner m.isTerminal m.termWidth now m.states).2.1 := by
  simp only [ManagerInner.draw]
  rw [if_neg (show ¬(true = false ∧ m.tickerOn = true) by simp),
      if_neg (show ¬(true = false ∧ now - m.lastDraw < m.interval) by simp),
      if_neg (show ¬(m.needRedraw = false) by simp [hdirty])]

theorem draw_unforced_eligible (m : ManagerInner) (now : Nat)
    (hticker : m.tickerOn = false)
    (hrate : ¬(now - m.lastDraw < m.interval))
    (hdirty : m.needRedraw = true) :
    (ManagerInner.draw m false now).2 =
      (if m.isTerminal = true ∧ 0 < m.states.length
       then List.replicate m.lastLines clearSeq else []) ++
      (drawInner m.isTerminal m.termWidth now m.states).2.1 := by
  simp only [ManagerInner.draw]
  rw [if_neg (show ¬(True ∧ m.tickerOn = true) by simp [hticker]),
      if_neg (show ¬(True ∧ now - m.lastDraw < m.interval) by simp [hrate]),
      if_neg (show ¬(m.needRedraw = false) by simp [hdirty])]

theorem draw_unforced_dropped_by_rate (m : ManagerInner) (now : Nat)
    (hticker : m.tickerOn = false)
    (hrate : now - m.lastDraw < m.interval) :
    ManagerInner.draw m false now = (m, []) := by
  simp only [ManagerInner.draw]
  rw [if_neg (show ¬(True ∧ m.tickerOn = true) by simp [hticker]),
      if_pos (show (True ∧ now - m.lastDraw < m.interval) from ⟨trivial, hrate⟩)]

/-- C3 counterexample: `cleanMgr` has a non-empty registry (one visible
dirty bar), but its global dirty flag is clear, so the forced draw is
dropped at the third gate of `ManagerInner::draw` (lib.rs:296–301) and
writes nothing — the claim "a forced draw always writes output when the
registry is non-empty" is false at this state. -/
theorem C3_counterexample :
    0 < cleanMgr.states.length ∧ (ManagerInner.draw cleanMgr true 50).2 = [] := by
  decide

/-- C3 (amended): a forced draw always writes output when the global
dirty flag is set and the registry holds a visible bar that is
individually dirty — regardless of the configured interval, the time
since the last draw, or whether the ticker is enabled
(lib.rs:286–313: `force` short-circuits the first two gates, and the
dirty registry walk emits at least that bar's rendering). -/
theorem C3_forced_draw_writes (m : ManagerInner) (now : Nat)
    (hdirty : m.needRedraw = true)
    (hbar : ∃ id st, (id, st) ∈ m.states ∧ st.visible = true ∧ st.need_redraw = true) :
    (ManagerInner.draw m true now).2 ≠ [] := by
  have hout := drawInner_out_ne_nil m.isTerminal m.termWidth now m.states hbar
  rw [draw_forced_dirty m now hdirty]
  intro hcontra
  rw [List.append_eq_nil] at hcontra
  exact hout hcontra.2

/-- C3 witness: the amended statement at a concrete dirty manager. -/
theorem C3_forced_draw_writes_witness :
    (ManagerInner.draw tickerMgr true 100).2 ≠ [] :=
  C3_forced_draw_writes tickerMgr 100 rfl ⟨0, sampleBar, by simp [tickerMgr], rfl, rfl⟩

/-- C8: two unforced draw requests separated by less than the configured
interval, with no ticker enabled, produce at most one write: if the first
one wrote, it set `last_draw` to its own instant (lib.rs:312), so the
second is dropped by the rate-limit gate `now - last_draw < interval`
(lib.rs:292–294). -/
theorem C8_rate_limit (m : ManagerInner) (t1 t2 : Nat)
    (hticker : m.tickerOn = false) (hlt : t2 - t1 < m.interval) :
    (ManagerInner.draw m false t1).2 = [] ∨
    (ManagerInner.draw (ManagerInner.draw m false t1).1 false t2).2 = [] := by
  by_cases h1 : (ManagerInner.draw m false t1).2 = []
  · exact Or.inl h1
  · right
    obtain ⟨hld, hto, hiv⟩ := draw_out_ne_nil_state m false t1 h1
    set s1 := (ManagerInner.draw m false t1).1 with hs1
    have hcond : t2 - s1.lastDraw < s1.interval := by rw [hld, hiv]; exact hlt
    have ht : s1.tickerOn = false := hto.trans hticker
    rw [draw_unforced_dropped_by_rate s1 t2 ht hcond]

/-- C8 witness: concrete pair of unforced requests 1 time unit apart with
interval 5; the state after the first request drops the second. -/
theorem C8_rate_limit_witness :
    (ManagerInner.draw { tickerMgr with tickerOn := false, interval := 5 } false 10).2 = [] ∨
    (ManagerInner.draw
      (ManagerInner.draw { tickerMgr with tickerOn := false, interval := 5 } false 10).1
      false 11).2 = [] :=
  C8_rate_limit { tickerMgr with tickerOn := false, interval := 5 } 10 11 rfl (by decide)

/-- C10: `Manager::new` (lib.rs:382) initializes `last_draw` to the
construction instant minus the configured interval, so for any request
instant `now ≥ t0` the rate-limit gate `now - last_draw < interval`
already fails at construction time, and the first dirty unforced request
(no ticker is enabled by construction, lib.rs:386) reaches the sink:
with the registry holding a visible dirty bar and the global dirty flag
set, the unforced draw writes. -/
theorem C10_first_unforced_draw (interval t0 now tw id : Nat) (isTerm : Bool)
    (st : BarState) (h0 : interval ≤ t0) (h1 : t0 ≤ now)
    (hv : st.visible = true) (hn : st.need_redraw = true) :
    (Manager.new interval t0 isTerm tw).lastDraw = t0 - interval ∧
    (ManagerInner.draw
      { Manager.new interval t0 isTerm tw with states := [(id, st)], needRedraw := true }
      false now).2 ≠ [] := by
  refine ⟨rfl, ?_⟩
  have hout := drawInner_out_ne_nil isTerm tw now [(id, st)] ⟨id, st, by simp, hv, hn⟩
  rw [draw_unforced_eligible
        { Manager.new interval t0 isTerm tw with states := [(id, st)], needRedraw := true }
        now rfl (show ¬(now - (t0 - interval) < interval) by omega) rfl]
  intro hcontra
  rw [List.append_eq_nil] at hcontra
  exact hout hcontra.2

/-- C10 witness: interval 7, constructed at instant 9, first unforced
request at the construction instant itself. -/
theorem C10_first_unforced_draw_witness :
    (Manager.new 7 9 false 80).lastDraw = 9 - 7 ∧
    (ManagerInner.draw
      { Manager.new 7 9 false 80 with states := [(0, sampleBar)], needRedraw := true }
      false 9).2 ≠ [] :=
  C10_first_unforced_draw 7 9 9 80 0 false sampleBar (by decide) (by decide) rfl rfl

set_option maxRecDepth 100000 in
/-- C4: rendering is a total function of the bar state — every pair of
position and length values (length 0, position exceeding length, zero
elapsed time included) produces a defined output string.  The ETA field
emits the literal "Unknown" marker when `position = 0` without dividing
(lib.rs:151–152); otherwise it renders the `H:MM:SS` formatting of
`(length - position) / throughput` (lib.rs:154–157), which is a defined
duration string for every input — under the wrapping `u64` subtraction of
release mode this holds even when `position > length`, as the concrete
evaluation at `length = 10, position = 15, elapsed = 1` shows
(`2 ^ 64 - 5` converts to the binary64 value `2 ^ 64`, whose division by
15.0 rounds to 1229782938247303424 seconds).  The final conjunct
evaluates the `length = 0, position = 0, elapsed = 0` state. -/
theorem C4_render_totality_and_eta :
    (∀ (st : BarState) (e : Nat), st.pos = 0 →
      renderPart st e TemplatePart.eta = "Unknown".data) ∧
    (∀ (st : BarState) (e : Nat), 0 < st.pos →
      ∃ secs, renderPart st e TemplatePart.eta = durationToHuman secs) ∧
    renderParts overflowBar 1
        [TemplatePart.eta, TemplatePart.bar 20, TemplatePart.stateEmoji] =
      "341606371735362:03:44[====================!!!!!!!!!!💥".data ∧
    renderParts { overflowBar with pos := 0, len := 0 } 0
        [TemplatePart.eta, TemplatePart.bytesPerSecond, TemplatePart.stateEmoji,
         TemplatePart.bar 20] =
      "Unknown0 B/s✅[                    ]".data := by
  refine ⟨?_, ?_, by decide, by decide⟩
  · intro st e h
    simp [renderPart, h]
  · intro st e h
    refine ⟨etaU64 st.len st.pos e, ?_⟩
    simp only [renderPart]
    rw [if_neg (Nat.pos_iff_ne_zero.mp h)]

/-- C4 witness: both universally quantified conjuncts applied at concrete
states (position 0, and the overflowed bar with position 15 > length 10). -/
theorem C4_render_totality_and_eta_witness :
    renderPart { overflowBar with pos := 0 } 1 TemplatePart.eta = "Unknown".data ∧
    (∃ secs, renderPart overflowBar 1 TemplatePart.eta = durationToHuman secs) :=
  ⟨C4_render_totality_and_eta.1 { overflowBar with pos := 0 } 1 rfl,
   C4_render_totality_and_eta.2.1 overflowBar 1 (by decide)⟩

set_option maxRecDepth 100000 in
/-- C5 counterexample: at position `2 ^ 53 + 3`, length `2 ^ 53 + 4`,
width 1 — a state inside the claim's quantification — the claimed fill
`floor(position / length * W)` is 0, so the claim demands the glyph
`[ ]`; but the program's `f64` evaluation (lib.rs:161) first rounds the
position up to `2 ^ 53 + 4`, computes exactly 1.0, and renders `[=]`:
the claimed formula is false of the code. -/
theorem C5_counterexample :
    bigBar.pos * 1 / bigBar.len = 0 ∧
    renderPart bigBar 1 (TemplatePart.bar 1) = "[=]".data ∧
    renderPart bigBar 1 (TemplatePart.bar 1) ≠
      '[' :: (List.replicate (bigBar.pos * 1 / bigBar.len) '=' ++
        List.replicate (1 - bigBar.pos * 1 / bigBar.len) ' ' ++ [']']) := by
  refine ⟨by decide, by decide, by decide⟩

set_option maxRecDepth 100000 in
/-- C5 (amended): the bar glyph of width `W` renders from the fill value
the code computes — the truncated, saturated binary64 evaluation of
`position / length * W` (`barFilled`), which can differ from the exact
`floor(position * W / length)` by a rounding, as the counterexample
shows.  The glyph shape is as claimed: `[`, `fill` fill chars, `W - fill`
spaces, `]` when `fill ≤ W`; `[`, `W` fill chars, `fill - W` overflow
markers and no closing bracket when `fill > W` (lib.rs:160–182).  At the
claim's concrete instance `length = 10, position = 15` the evaluation is
exact — fill agrees with `floor(position * W / length)` at both width 10
and the default width 20 — and with width 10 the glyph is a full-width
fill plus 5 overflow markers while the status glyph reports overflow
(lib.rs:188–189). -/
theorem C5_bar_glyph :
    (∀ (st : BarState) (e W : Nat),
      renderParts st e [TemplatePart.bar W] =
        if barFilled st.pos st.len W ≤ W
        then '[' :: (List.replicate (barFilled st.pos st.len W) '=' ++
              List.replicate (W - barFilled st.pos st.len W) ' ' ++ [']'])
        else '[' :: (List.replicate W '=' ++
              List.replicate (barFilled st.pos st.len W - W) '!')) ∧
    barFilled 15 10 10 = 15 * 10 / 10 ∧
    barFilled 15 10 20 = 15 * 20 / 10 ∧
    renderParts overflowBar 1 [TemplatePart.bar 10, TemplatePart.stateEmoji] =
      "[==========!!!!!💥".data := by
  refine ⟨?_, by decide, by decide, by decide⟩
  intro st e W
  simp only [renderParts, renderPart, barGlyph, List.append_nil]

theorem renderParts_append (st : BarState) (e : Nat) :
    ∀ a b, renderParts st e (a ++ b) = renderParts st e a ++ renderParts st e b := by
  intro a b
  induction a with
  | nil => rfl
  | cons p ps ih =>
    simp only [List.cons_append, renderParts, List.append_eq, ih, List.append_assoc]

theorem fragsToParts_append :
    ∀ a b, fragsToParts (a ++ b) = fragsToParts a ++ fragsToParts b := by
  intro a b
  induction a with
  | nil => rfl
  | cons f fs ih =>
    cases f with
    | text s => simp only [List.cons_append, fragsToParts, List.append_eq, ih, List.append_assoc]
    | tag t => simp only [List.cons_append, fragsToParts, List.append_eq, ih, List.append_assoc]

theorem splitNL_no_nl : ∀ s : List Char, '\n' ∉ s → splitNL s = [s] := by
  intro s
  induction s with
  | nil => intro h; rfl
  | cons c rest ih =>
    intro h
    have hc : ¬(c = '\n') := by
      intro hc; exact h (hc ▸ List.mem_cons_self c rest)
    have hr : '\n' ∉ rest := fun hm => h (List.mem_cons_of_mem c hm)
    simp only [splitNL, if_neg hc, ih hr]

theorem scanTag_none : ∀ s : List Char, '}' ∉ s → scanTag s = none := by
  intro s
  induction s with
  | nil => intro h; rfl
  | cons c rest ih =>
    intro h
    have hc : ¬(c = '}') := by
      intro hc; exact h (hc ▸ List.mem_cons_self c rest)
    have hr : '}' ∉ rest := fun hm => h (List.mem_cons_of_mem c hm)
    simp only [scanTag, if_neg hc, ih hr]

theorem renderParts_pushText (st : BarState) (e : Nat) :
    ∀ s, renderParts st e (pushText s) = s := by
  intro s
  induction s with
  | nil => rfl
  | cons c rest ih =>
    rcases hsp : splitNL rest with - | ⟨p, ps⟩
    · exact absurd hsp (splitNL_ne_nil rest)
    · have hpr : pushText rest = TemplatePart.text p :: partsTail ps := by
        simp only [pushText, hsp]
      rw [hpr] at ih
      simp only [renderParts, renderPart] at ih
      by_cases hc : c = '\n'
      · subst hc
        have hpt : pushText ('\n' :: rest) =
            TemplatePart.text [] :: TemplatePart.newline ::
              TemplatePart.text p :: partsTail ps := by
          simp [pushText, splitNL, hsp, partsTail]
        rw [hpt]
        simp only [renderParts, renderPart, List.nil_append, List.cons_append,
          List.singleton_append]
        rw [ih]
      · have hpt : pushText (c :: rest) =
            TemplatePart.text (c :: p) :: partsTail ps := by
          simp only [pushText, splitNL, if_neg hc, hsp]
        rw [hpt]
        simp only [renderParts, renderPart, List.cons_append]
        rw [ih]

theorem scanF_fuel : ∀ f f' cs acc, cs.length < f → cs.length < f' →
    scanF f cs acc = scanF f' cs acc := by
  intro f
  induction f with
  | zero => intro f' cs acc h; simp at h
  | succ f ihf =>
    intro f' cs acc hf hf'
    cases f' with
    | zero => simp at hf'
    | succ f' =>
      cases cs with
      | nil => rfl
      | cons c rest =>
        cases rest with
        | nil =>
          simp only [List.length_cons, List.length_nil] at hf hf'
          simp only [scanF]
          split_ifs <;>
            first
              | rfl
              | exact ihf f' [] (acc ++ ['}'])
                  (by simp only [List.length_nil]; omega)
                  (by simp only [List.length_nil]; omega)
              | exact ihf f' [] (acc ++ [c])
                  (by simp only [List.length_nil]; omega)
                  (by simp only [List.length_nil]; omega)
        | cons c2 rest2 =>
          simp only [List.length_cons] at hf hf'
          have hlen : ∀ tag rest2', scanTag (c2 :: rest2) = some (tag, rest2') →
              rest2'.length < rest2.length + 1 := by
            intro tag rest2' hsc
            have := scanTag_length (c2 :: rest2) tag rest2' hsc
            simp only [List.length_cons] at this
            omega
          simp only [scanF]
          rcases hsc : scanTag (c2 :: rest2) with - | ⟨tag, rest2'⟩ <;>
            simp only [hsc] <;>
            split_ifs <;>
            first
              | rfl
              | exact ihf f' rest2 (acc ++ ['{']) (by omega) (by omega)
              | exact ihf f' rest2 (acc ++ ['}']) (by omega) (by omega)
              | exact ihf f' (c2 :: rest2) (acc ++ ['}'])
                  (by simp only [List.length_cons]; omega)
                  (by simp only [List.length_cons]; omega)
              | exact ihf f' (c2 :: rest2) (acc ++ [c])
                  (by simp only [List.length_cons]; omega)
                  (by simp only [List.length_cons]; omega)
              | rw [ihf f' rest2' []
                    (by have := hlen tag rest2' hsc; omega)
                    (by have := hlen tag rest2' hsc; omega)]

theorem fragsToParts_pre (st : BarState) (e : Nat) (acc : List Char) (fs : List Fragment) :
    renderParts st e (fragsToParts ((if acc = [] then [] else [Fragment.text acc]) ++ fs)) =
      acc ++ renderParts st e (fragsToParts fs) := by
  by_cases ha : acc = []
  · subst ha
    simp
  · rw [if_neg ha, fragsToParts_append, renderParts_append]
    simp only [fragsToParts, List.append_nil]
    rw [renderParts_pushText]

theorem scanF_acc (st : BarState) (e : Nat) : ∀ f cs acc, cs.length < f →
    renderParts st e (fragsToParts (scanF f cs acc)) =
      acc ++ renderParts st e (fragsToParts (scanF f cs [])) := by
  intro f
  induction f with
  | zero => intro cs acc h; simp at h
  | succ f ihf =>
    intro cs acc hf
    cases cs with
    | nil =>
      by_cases ha : acc = []
      · subst ha; rfl
      · simp [scanF, ha, fragsToParts, renderParts, renderParts_pushText]
    | cons c rest =>
      simp only [List.length_cons] at hf
      by_cases hc1 : c = '{'
      · subst hc1
        cases rest with
        | nil =>
          have hL : scanF (f + 1) ['{'] acc =
              (if acc = [] then [] else [Fragment.text acc]) ++ [Fragment.text ['{']] := rfl
          have hR : scanF (f + 1) ['{'] [] = [Fragment.text ['{']] := rfl
          rw [hL, hR, fragsToParts_pre]
        | cons c2 rest2 =>
          simp only [List.length_cons] at hf
          by_cases hc2 : c2 = '{'
          · subst hc2
            have hL : scanF (f + 1) ('{' :: '{' :: rest2) acc = scanF f rest2 (acc ++ ['{']) := rfl
            have hR : scanF (f + 1) ('{' :: '{' :: rest2) [] = scanF f rest2 ['{'] := rfl
            rw [hL, hR, ihf rest2 (acc ++ ['{']) (by omega), ihf rest2 ['{'] (by omega),
                List.append_assoc]
          · rcases hsc : scanTag (c2 :: rest2) with - | ⟨tag, rest2'⟩
            · have hL : scanF (f + 1) ('{' :: c2 :: rest2) acc =
                  (if acc = [] then [] else [Fragment.text acc]) ++
                    [Fragment.text ('{' :: c2 :: rest2)] := by
                simp [scanF, hc2, hsc]
              have hR : scanF (f + 1) ('{' :: c2 :: rest2) [] =
                  [Fragment.text ('{' :: c2 :: rest2)] := by
                simp [scanF, hc2, hsc]
              rw [hL, hR, fragsToParts_pre]
            · have hL : scanF (f + 1) ('{' :: c2 :: rest2) acc =
                  (if acc = [] then [] else [Fragment.text acc]) ++
                    (Fragment.tag tag :: scanF f rest2' []) := by
                simp [scanF, hc2, hsc]
              have hR : scanF (f + 1) ('{' :: c2 :: rest2) [] =
                  Fragment.tag tag :: scanF f rest2' [] := by
                simp [scanF, hc2, hsc]
              rw [hL, hR, fragsToParts_pre]
      · by_cases hc1' : c = '}'
        · subst hc1'
          cases rest with
          | nil =>
            have hL : scanF (f + 1) ['}'] acc = scanF f [] (acc ++ ['}']) := rfl
            have hR : scanF (f + 1) ['}'] [] = scanF f [] ['}'] := rfl
            rw [hL, hR, ihf [] (acc ++ ['}']) (by simp only [List.length_nil]; omega),
                ihf [] ['}'] (by simp only [List.length_nil]; omega), List.append_assoc]
          | cons c2 rest2 =>
            simp only [List.length_cons] at hf
            by_cases hc2 : c2 = '}'
            · subst hc2
              have hL : scanF (f + 1) ('}' :: '}' :: rest2) acc =
                  scanF f rest2 (acc ++ ['}']) := rfl
              have hR : scanF (f + 1) ('}' :: '}' :: rest2) [] = scanF f rest2 ['}'] := rfl
              rw [hL, hR, ihf rest2 (acc ++ ['}']) (by omega), ihf rest2 ['}'] (by omega),
                  List.append_assoc]
            · have hL : scanF (f + 1) ('}' :: c2 :: rest2) acc =
                  scanF f (c2 :: rest2) (acc ++ ['}']) := by
                simp [scanF, hc2]
              have hR : scanF (f + 1) ('}' :: c2 :: rest2) [] = scanF f (c2 :: rest2) ['}'] := by
                simp [scanF, hc2]
              rw [hL, hR,
                  ihf (c2 :: rest2) (acc ++ ['}']) (by simp only [List.length_cons]; omega),
                  ihf (c2 :: rest2) ['}'] (by simp only [List.length_cons]; omega),
                  List.append_assoc]
        · have hL : scanF (f + 1) (c :: rest) acc = scanF f rest (acc ++ [c]) := by
            simp [scanF, hc1, hc1']
          have hR : scanF (f + 1) (c :: rest) [] = scanF f rest [c] := by
            simp [scanF, hc1, hc1']
          rw [hL, hR, ihf rest (acc ++ [c]) (by omega), ihf rest [c] (by omega),
              List.append_assoc]

theorem scanTag_append : ∀ (tag rest : List Char), '}' ∉ tag →
    scanTag (tag ++ '}' :: rest) = some (tag, rest) := by
  intro tag
  induction tag with
  | nil => intro rest h; rfl
  | cons c tg ih =>
    intro rest h
    have hc : ¬(c = '}') := fun hcc => h (by rw [hcc]; exact List.mem_cons_self '}' tg)
    have h' : '}' ∉ tg := fun hm => h (List.mem_cons_of_mem c hm)
    rw [List.cons_append]
    simp only [scanTag, if_neg hc, List.append_eq]
    rw [ih rest h']

theorem scanTextRun : ∀ (p : List Char), '{' ∉ p → '}' ∉ p →
    ∀ f cs acc, (p ++ cs).length < f → scanF f (p ++ cs) acc = scanF f cs (acc ++ p) := by
  intro p
  induction p with
  | nil => intro h1 h2 f cs acc hf; simp
  | cons c p' ih =>
    intro h1 h2 f cs acc hf
    have hc1 : ¬(c = '{') := fun hc => h1 (by rw [hc]; exact List.mem_cons_self '{' p')
    have hc2 : ¬(c = '}') := fun hc => h2 (by rw [hc]; exact List.mem_cons_self '}' p')
    have h1' : '{' ∉ p' := fun hm => h1 (List.mem_cons_of_mem c hm)
    have h2' : '}' ∉ p' := fun hm => h2 (List.mem_cons_of_mem c hm)
    simp only [List.cons_append, List.length_cons] at hf ⊢
    cases f with
    | zero => simp at hf
    | succ f =>
      have hstep : scanF (f + 1) (c :: (p' ++ cs)) acc = scanF f (p' ++ cs) (acc ++ [c]) := by
        simp [scanF, hc1, hc2]
      rw [hstep, ih h1' h2' f cs (acc ++ [c]) (by omega),
          scanF_fuel f (f + 1) cs ((acc ++ [c]) ++ p')
            (by simp only [List.length_append] at hf ⊢; omega)
            (by simp only [List.length_append] at hf ⊢; omega)]
      exact congrArg (scanF (f + 1) cs) (by simp)

theorem scanF_open_tag : ∀ (f : Nat) (c : Char) (r tag rest2' : List Char),
    ¬(c = '{') → scanTag (c :: r) = some (tag, rest2') →
    scanF (f + 1) ('{' :: c :: r) [] = Fragment.tag tag :: scanF f rest2' [] := by
  intro f c r tag rest2' hc hsc
  simp [scanF, hc, hsc]

/-- C7 counterexample: the claim says every doubled opening brace appears
as a single literal brace in the output; but inside a field's tag content
the scanner consumes braces as ordinary characters (template.rs:48–54),
so the template `\x7bx\x7b\x7by\x7d` compiles to the unknown tag
`x\x7b\x7by`, comes back as literal text, and renders with its doubled
brace intact — not as the single-brace output `\x7bx\x7by\x7d` the claim
demands. -/
theorem C7_counterexample :
    Template.new "\x7bx\x7b\x7by\x7d".data =
      [TemplatePart.text "\x7bx\x7b\x7by\x7d".data] ∧
    renderParts sampleBar 1 (Template.new "\x7bx\x7b\x7by\x7d".data) =
      "\x7bx\x7b\x7by\x7d".data ∧
    renderParts sampleBar 1 (Template.new "\x7bx\x7b\x7by\x7d".data) ≠
      "\x7bx\x7by\x7d".data := by
  refine ⟨by decide, by decide, by decide⟩

/-- C7 (amended): compilation and rendering are total functions of every
template string (no error path exists in `Template::new`,
template.rs:26–119, or `BarState::render`), and for every render state:
a doubled opening or closing brace reached in literal-text scanning
position — here after an arbitrary run of brace-free literal text, with
complete fields composable in front via the fourth clause — renders as a
single literal brace and never opens or closes a field
(template.rs:38–40,64–67); a doubled brace inside a field's tag content
instead passes through verbatim with the tag (see the counterexample);
an unterminated `\x7b` whose tag scan reaches the end of input (no
closing brace in the remainder; the next character not another `\x7b`,
which would instead form the escape) is emitted back as literal text
verbatim, brace included (template.rs:56–61,77–79), after any brace-free
literal prefix — the remainder may itself contain further opening
braces; and a field `\x7bname\x7d` compiles independently of whatever
follows it. -/
theorem C7_brace_handling :
    (∀ (st : BarState) (e : Nat) (p t : List Char), '{' ∉ p → '}' ∉ p →
      renderParts st e (Template.new (p ++ '{' :: '{' :: t)) =
        p ++ '{' :: renderParts st e (Template.new t)) ∧
    (∀ (st : BarState) (e : Nat) (p t : List Char), '{' ∉ p → '}' ∉ p →
      renderParts st e (Template.new (p ++ '}' :: '}' :: t)) =
        p ++ '}' :: renderParts st e (Template.new t)) ∧
    (∀ (st : BarState) (e : Nat) (p s : List Char), '{' ∉ p → '}' ∉ p →
      s.head? ≠ some '{' → '}' ∉ s →
      renderParts st e (Template.new (p ++ '{' :: s)) = p ++ '{' :: s) ∧
    (∀ (st : BarState) (e : Nat) (tag t : List Char), '}' ∉ tag →
      tag.head? ≠ some '{' →
      renderParts st e (Template.new ('{' :: tag ++ '}' :: t)) =
        renderParts st e (dispatchTag tag) ++ renderParts st e (Template.new t)) := by
  refine ⟨?_, ?_, ?_, ?_⟩
  · intro st e p t h1 h2
    show renderParts st e
        (fragsToParts (scanF ((p ++ '{' :: '{' :: t).length + 1) (p ++ '{' :: '{' :: t) [])) =
      p ++ '{' :: renderParts st e (fragsToParts (scanF (t.length + 1) t []))
    rw [scanTextRun p h1 h2 ((p ++ '{' :: '{' :: t).length + 1) ('{' :: '{' :: t) []
          (Nat.lt_succ_self _)]
    simp only [List.nil_append]
    rw [show scanF ((p ++ '{' :: '{' :: t).length + 1) ('{' :: '{' :: t) p =
          scanF ((p ++ '{' :: '{' :: t).length) t (p ++ ['{']) from rfl,
        scanF_acc st e ((p ++ '{' :: '{' :: t).length) t (p ++ ['{'])
          (by simp [List.length_append]; omega),
        scanF_fuel ((p ++ '{' :: '{' :: t).length) (t.length + 1) t []
          (by simp [List.length_append]; omega) (by omega)]
    simp [List.append_assoc]
  · intro st e p t h1 h2
    show renderParts st e
        (fragsToParts (scanF ((p ++ '}' :: '}' :: t).length + 1) (p ++ '}' :: '}' :: t) [])) =
      p ++ '}' :: renderParts st e (fragsToParts (scanF (t.length + 1) t []))
    rw [scanTextRun p h1 h2 ((p ++ '}' :: '}' :: t).length + 1) ('}' :: '}' :: t) []
          (Nat.lt_succ_self _)]
    simp only [List.nil_append]
    rw [show scanF ((p ++ '}' :: '}' :: t).length + 1) ('}' :: '}' :: t) p =
          scanF ((p ++ '}' :: '}' :: t).length) t (p ++ ['}']) from rfl,
        scanF_acc st e ((p ++ '}' :: '}' :: t).length) t (p ++ ['}'])
          (by simp [List.length_append]; omega),
        scanF_fuel ((p ++ '}' :: '}' :: t).length) (t.length + 1) t []
          (by simp [List.length_append]; omega) (by omega)]
    simp [List.append_assoc]
  · intro st e p s h1 h2 hhead h3
    show renderParts st e
        (fragsToParts (scanF ((p ++ '{' :: s).length + 1) (p ++ '{' :: s) [])) =
      p ++ '{' :: s
    rw [scanTextRun p h1 h2 ((p ++ '{' :: s).length + 1) ('{' :: s) []
          (Nat.lt_succ_self _)]
    simp only [List.nil_append]
    cases s with
    | nil =>
      rw [show scanF ((p ++ '{' :: ([] : List Char)).length + 1) ['{'] p =
            (if p = [] then [] else [Fragment.text p]) ++ [Fragment.text ['{']] from rfl,
          fragsToParts_pre]
      rfl
    | cons c2 s2 =>
      have hc2 : ¬(c2 = '{') := fun hcc => hhead (by simp [hcc])
      have hsc : scanTag (c2 :: s2) = none := scanTag_none (c2 :: s2) h3
      have hstep : scanF ((p ++ '{' :: c2 :: s2).length + 1) ('{' :: c2 :: s2) p =
          (if p = [] then [] else [Fragment.text p]) ++
            [Fragment.text ('{' :: c2 :: s2)] := by
        simp [scanF, hc2, hsc]
      rw [hstep, fragsToParts_pre]
      simp only [fragsToParts, List.append_nil]
      rw [renderParts_pushText]
  · intro st e tag t htag hhead
    have hsc : scanTag (tag ++ '}' :: t) = some (tag, t) := scanTag_append tag t htag
    show renderParts st e
        (fragsToParts (scanF (('{' :: tag ++ '}' :: t).length + 1) ('{' :: tag ++ '}' :: t) [])) =
      renderParts st e (dispatchTag tag) ++
        renderParts st e (fragsToParts (scanF (t.length + 1) t []))
    have hstep : scanF (('{' :: tag ++ '}' :: t).length + 1) ('{' :: tag ++ '}' :: t) [] =
        Fragment.tag tag :: scanF (('{' :: tag ++ '}' :: t).length) t [] := by
      cases tag with
      | nil =>
        exact scanF_open_tag (('{' :: ([] : List Char) ++ '}' :: t).length) '}' t [] t
          (by decide) rfl
      | cons c tg =>
        have hc : ¬(c = '{') := fun hcc => hhead (by simp [hcc])
        have hsc' : scanTag (c :: (tg ++ '}' :: t)) = some (c :: tg, t) := by
          have h := scanTag_append (c :: tg) t htag
          rwa [List.cons_append] at h
        exact scanF_open_tag (('{' :: (c :: tg) ++ '}' :: t).length) c (tg ++ '}' :: t)
          (c :: tg) t hc hsc' 
    rw [hstep]
    simp only [fragsToParts]
    rw [renderParts_append,
        scanF_fuel (('{' :: tag ++ '}' :: t).length) (t.length + 1) t []
          (by simp [List.length_append]; omega) (by omega)]

/-- C7 witness: the four clauses at concrete inputs — a doubled `\x7b`
after the literal prefix "ab" and before a recognized tag; a doubled
`\x7d` after the literal prefix "cd"; the unterminated template
`a\x7bb\x7bc` (whose unterminated remainder itself contains a `\x7b`);
and the field `\x7bpos\x7d` followed by further text. -/
theorem C7_brace_handling_witness :
    renderParts sampleBar 1 (Template.new ("ab".data ++ '{' :: '{' :: "\x7bmsg\x7d".data)) =
      "ab".data ++ '{' :: renderParts sampleBar 1 (Template.new "\x7bmsg\x7d".data) ∧
    renderParts sampleBar 1 (Template.new ("cd".data ++ '}' :: '}' :: [])) =
      "cd".data ++ '}' :: renderParts sampleBar 1 (Template.new []) ∧
    renderParts sampleBar 1 (Template.new ("a".data ++ '{' :: "b\x7bc".data)) =
      "a".data ++ '{' :: "b\x7bc".data ∧
    renderParts sampleBar 1 (Template.new ('{' :: "pos".data ++ '}' :: "x".data)) =
      renderParts sampleBar 1 (dispatchTag "pos".data) ++
        renderParts sampleBar 1 (Template.new "x".data) :=
  ⟨C7_brace_handling.1 sampleBar 1 "ab".data "\x7bmsg\x7d".data (by decide) (by decide),
   C7_brace_handling.2.1 sampleBar 1 "cd".data [] (by decide) (by decide),
   C7_brace_handling.2.2.1 sampleBar 1 "a".data "b\x7bc".data
     (by decide) (by decide) (by decide) (by decide),
   C7_brace_handling.2.2.2 sampleBar 1 "pos".data "x".data (by decide) (by decide)⟩
